import Mathlib

/-!
Verification development for the BoardCordMored chat-bubble encoding pipeline.

The definitions below are a shallow embedding of the TypeScript sources:
* `src/src/userplugins/chatBubble/shared.ts` (geometry model, FFmpeg time
  formatting, the temporary-file manager, the socket bridge, the encoding
  job and its argument builder), and
* `src/unnamed/part_000` (the `ChatbubbleConfiguration.getCroppedRectangle`
  crop derivation).

JavaScript numbers appearing in order/sign-sensitive computations are
modelled as exact rationals (`ℚ`); JavaScript `BigInt` values as `ℕ`
(all values involved are non-negative); JavaScript strings as `String`
or `List Char`.  Fallible code returns `Option`.
-/

/-- Embeds the `Rectangle extends Dimensions` interface of `shared.ts`
(lines 15-23): an `{x, y}` offset plus a width and a height.  The numeric
type is a parameter because the crop pipeline uses both raw (rational)
coordinates and `Math.trunc`-ed integral ones. -/
structure Rect (α : Type) where
  x : α
  y : α
  width : α
  height : α
  deriving Repr, DecidableEq

/-- Embeds `ChatbubbleConfiguration.getCroppedRectangle`
(`src/unnamed/part_000` lines 614-625) applied to the two crop corner
points `a` and `b` (the pair produced there by `corners.toSpace(space)` or
`corners.mul(space)`): each axis is sorted independently and the rectangle
is the axis-aligned bounding box of the two points. -/
def getCroppedRectangle (a b : ℚ × ℚ) : Rect ℚ :=
  let xp := if a.1 < b.1 then (a.1, b.1) else (b.1, a.1)
  let yp := if a.2 < b.2 then (a.2, b.2) else (b.2, a.2)
  { x := xp.1, y := yp.1, width := xp.2 - xp.1, height := yp.2 - yp.1 }

/-- Embeds the `ChatbubbleExportFormat` string enum (`shared.ts` lines
106-111). -/
inductive ChatbubbleExportFormat where
  | PNG
  | GIF
  | MP4
  | WEBM
  deriving Repr, DecidableEq

/-- The string value carried by each `ChatbubbleExportFormat` enum member
(`shared.ts` lines 106-111). -/
def ChatbubbleExportFormat.mime : ChatbubbleExportFormat → String
  | .PNG => "image/png"
  | .GIF => "image/gif"
  | .MP4 => "video/mp4"
  | .WEBM => "video/webm"

/-- Models JavaScript `String.prototype.startsWith`: the candidate prefix's
characters are a prefix of the receiver's characters. -/
def jsStartsWith (s pre : String) : Bool :=
  pre.data.isPrefixOf s.data

/-- Embeds the `FFmpegJob.IO.Method` enum (`shared.ts` lines 806-819). -/
inductive IOMethod where
  | Streaming
  | TemporaryFiles
  deriving Repr, DecidableEq

/-- Embeds `FFmpegJob.IO.choose` (`shared.ts` lines 821-834): temp-file
I/O is selected when the input is a GIF, when a video input is exported to
GIF, or when the export container is MP4 or WEBM; otherwise streaming I/O
is selected.  `inputBytes` is accepted (as in the source) but unused. -/
def choose (inputMime : String) (inputBytes : ℕ) (exportType : ChatbubbleExportFormat) :
    IOMethod :=
  if (inputMime = ChatbubbleExportFormat.GIF.mime) ∨
      (jsStartsWith inputMime "video" ∧ exportType = ChatbubbleExportFormat.GIF) ∨
      (exportType = ChatbubbleExportFormat.MP4) ∨
      (exportType = ChatbubbleExportFormat.WEBM) then
    IOMethod.TemporaryFiles
  else
    IOMethod.Streaming

/-- The numeric value of a decimal digit character, as JavaScript's
`BigInt`/`Number` conversion reads it: the code point minus 48. -/
def charVal (c : Char) : ℕ := c.toNat - 48

/-- The decimal digit character for a value below ten, as JavaScript's
number-to-string conversion writes it: code point 48 plus the digit. -/
def digitChar (d : ℕ) : Char := Char.ofNat (48 + d)

/-- Models JavaScript's `String(n)` for a non-negative integer (also the
rendering used by `BigInt.prototype.toString`): standard decimal notation
with no leading zeros (and the single digit `0` for zero). -/
def renderNat (n : ℕ) : List Char :=
  if n < 10 then [digitChar n]
  else renderNat (n / 10) ++ [digitChar (n % 10)]
decreasing_by exact Nat.div_lt_self (by omega) (by omega)

/-- Models JavaScript's `BigInt(s)` on a string of decimal digits: the
base-ten value of the digit sequence (leading zeros allowed). -/
def digitsVal (s : List Char) : ℕ :=
  s.foldl (fun a c => 10 * a + charVal c) 0

/-- Models JavaScript `String.prototype.padStart(2, "0")`: prepend zero
characters until the length is at least two. -/
def padStart2 (s : List Char) : List Char :=
  List.replicate (2 - s.length) '0' ++ s

/-- A time part rendered with `String(part).padStart(2, "0")`, as each
entry of `parts` is in `ChatbubbleFFmpegTime.toString` (`shared.ts`
line 92). -/
def pad2 (n : ℕ) : List Char := padStart2 (renderNat n)

namespace ChatbubbleFFmpegTime

/-- Embeds `ChatbubbleFFmpegTime.toString` (`shared.ts` lines 79-93) on a
microsecond count `t`.  The source peels `t` with the `MAGNITUDES` list
`[1000000, 60, 60, 24]` (microseconds per second, seconds per minute,
minutes per hour, hours per day), storing the remainders into `parts` from
the back; a non-zero residue after all four magnitudes (at least one full
day) throws, modelled as `none`.  Otherwise the result is
`HH:MM:SS.UU`, each part rendered with `padStart(2, "0")` (so the
microsecond remainder keeps all of its digits, zero-padded to at least
two). -/
def toString (t : ℕ) : Option (List Char) :=
  let us := t % 1000000
  let t1 := t / 1000000
  let s := t1 % 60
  let t2 := t1 / 60
  let m := t2 % 60
  let t3 := t2 / 60
  let h := t3 % 24
  let t4 := t3 / 24
  if t4 ≠ 0 then none
  else some (pad2 h ++ ':' :: pad2 m ++ ':' :: pad2 s ++ '.' :: pad2 us)

end ChatbubbleFFmpegTime

/-- Models the JavaScript global regex match `input.match(/\d+/g)`: the
list of maximal runs of decimal digit characters, in order.  An input with
no digits yields `[]` (the source's `null`). -/
def digitRuns : List Char → List (List Char)
  | [] => []
  | c :: rest =>
    if c.isDigit then
      (c :: rest.takeWhile Char.isDigit) :: digitRuns (rest.dropWhile Char.isDigit)
    else
      digitRuns rest
termination_by l => l.length
decreasing_by
  · exact Nat.lt_succ_of_le (List.Sublist.length_le (List.dropWhile_sublist _))
  · exact Nat.lt_succ_of_le (Nat.le_refl _)

/-- Models `ChatbubbleFFmpegTime.MAGNITUDES[i] ?? 1n` (`shared.ts` lines 70-75 and
101): the magnitude list indexed by a possibly out-of-range signed index,
defaulting to one. -/
def magAt (i : ℤ) : ℕ :=
  if i = 0 then 1000000
  else if i = 1 then 60
  else if i = 2 then 60
  else if i = 3 then 24
  else 1

/-- The accumulation loop of `ChatbubbleFFmpegTime.parse` (`shared.ts`
lines 99-102): for each digit span, add its value and then multiply by
`MAGNITUDES[j - 1] ?? 1n`, with `j` counting down from
`MAGNITUDES.length - 1 = 3`. -/
def parseFold : ℕ → ℤ → List ℕ → ℕ
  | acc, _, [] => acc
  | acc, j, v :: rest => parseFold ((acc + v) * magAt (j - 1)) (j - 1) rest

/-- Embeds `ChatbubbleFFmpegTime.parse` (`shared.ts` lines 95-104): match
all digit runs (throwing — here `none` — when there are none), then fold
them with `parseFold` starting at index 3.  Returns the accumulated
microsecond count. -/
def ChatbubbleFFmpegTime.parse (input : List Char) : Option ℕ :=
  let spans := digitRuns input
  if spans.isEmpty then none
  else some (parseFold 0 3 (spans.map digitsVal))

/-- Embeds `clamp` (`shared.ts` lines 208-210): `Math.min(hi, Math.max(lo,
value))`. -/
def clamp (value lo hi : ℚ) : ℚ := min hi (max lo value)

/-- Embeds `fixedPrecisionBigIntDivide` (`shared.ts` lines 678-686) as the
exact rational value denoted by the decimal string it returns: the
truncated integer quotient plus the first `precision` decimal digits of
the remainder (`dec` zero-padded on the left by `pre` zeros).  The source
operates on `BigInt`s; both arguments here are the non-negative values the
progress handler passes. -/
def fixedPrecisionBigIntDivide (numerator denominator precision : ℕ) : ℚ :=
  let shift : ℕ := 10 ^ precision
  ((numerator / denominator : ℕ) : ℚ) +
    ((numerator % denominator * shift / denominator : ℕ) : ℚ) / (shift : ℚ)

/-- Models the regex search `chunk.match(/out_time_us=(\d+)/)` of the
stdout data handler (`shared.ts` line 771): scan for the first occurrence
of `out_time_us=` followed by at least one digit and return the value of
the maximal digit run there; `none` when there is no match. -/
def findOutTimeUs : List Char → Option ℕ
  | [] => none
  | c :: rest =>
    if "out_time_us=".data.isPrefixOf (c :: rest) then
      let ds := ((c :: rest).drop 12).takeWhile Char.isDigit
      if ds.isEmpty then findOutTimeUs rest
      else some (digitsVal ds)
    else findOutTimeUs rest

/-- The state read and written by the `FFmpegJob` stdout data handler:
`foundMainLength` is the primary input's duration in microseconds once the
stderr handler has parsed it (`shared.ts` lines 778-790), and `progress`
is the job's `_progress` field. -/
structure FFmpegJobProgressState where
  foundMainLength : Option ℕ
  progress : ℚ
  deriving Repr

/-- Embeds the `FFmpegJob` stdout data handler (`shared.ts` lines
768-776): bail out while the duration is unknown or when the chunk has no
`out_time_us=` field; otherwise emit (and store) the clamped fixed-point
quotient of the elapsed microseconds by the duration.  A zero duration
makes the source's `BigInt` division throw inside the handler, so nothing
is emitted in that case. -/
def stdoutDataHandler (st : FFmpegJobProgressState) (chunk : List Char) :
    FFmpegJobProgressState × List ℚ :=
  match st.foundMainLength with
  | none => (st, [])
  | some dur =>
    match findOutTimeUs chunk with
    | none => (st, [])
    | some micros =>
      if dur = 0 then (st, [])
      else
        let progress := clamp (fixedPrecisionBigIntDivide micros dur 5) 0 1
        ({ st with progress := progress }, [progress])

/-- Feeds a sequence of stdout chunks through `stdoutDataHandler`,
threading the state and concatenating the emitted progress events. -/
def runStdoutChunks (st : FFmpegJobProgressState) :
    List (List Char) → FFmpegJobProgressState × List ℚ
  | [] => (st, [])
  | chunk :: rest =>
    let step := stdoutDataHandler st chunk
    let next := runStdoutChunks step.1 rest
    (next.1, step.2 ++ next.2)

/-- The sequence of progress fractions one job emits for a given duration
state and stdout chunk sequence (the job's `_progress` starts at 0,
`shared.ts` line 702). -/
def emittedProgress (foundMainLength : Option ℕ) (chunks : List (List Char)) : List ℚ :=
  (runStdoutChunks { foundMainLength := foundMainLength, progress := 0 } chunks).2

/-- The progress event (if any) a single chunk produces, given the
duration state; used to relate `emittedProgress` to a `filterMap`. -/
def chunkProgress (foundMainLength : Option ℕ) (chunk : List Char) : Option ℚ :=
  match foundMainLength with
  | none => none
  | some dur =>
    match findOutTimeUs chunk with
    | none => none
    | some micros =>
      if dur = 0 then none
      else some (clamp (fixedPrecisionBigIntDivide micros dur 5) 0 1)

/-- The terminal events an `FFmpegJob` can emit: `failure` (`shared.ts`
lines 743-748, 750-755, 760-765) and `success` (lines 730-732, via the
output promise resolved at line 759). -/
inductive TerminalEvent where
  | failure
  | success
  deriving Repr, DecidableEq

/-- Embeds the `FFmpegJob` process `exit` handler (`shared.ts` lines
750-755): any exit code other than 0 emits a failure event.  `none`
models Node's `null` exit code for a process terminated by a signal. -/
def processExitHandlerEvents (code : Option Int) : List TerminalEvent :=
  if code ≠ some 0 then [TerminalEvent.failure] else []

/-- Embeds the `FFmpegJob` process `close` handler (`shared.ts` lines
757-766): a clean exit resolves the `waiting` promise, whose downstream
output promise emits the success event (lines 730-732); any other outcome
emits a failure event. -/
def processCloseHandlerEvents (code : Option Int) : List TerminalEvent :=
  if code = some 0 then [TerminalEvent.success] else [TerminalEvent.failure]

/-- The terminal events emitted for one process outcome: Node fires the
`exit` event and then the `close` event with the same code. -/
def processTerminationEvents (code : Option Int) : List TerminalEvent :=
  processExitHandlerEvents code ++ processCloseHandlerEvents code

/-- The kill signal configured at spawn time (`shared.ts` line 738):
aborting `life` (as `ffmpeg` at line 972 and `cancelJob` at line 983 do)
force-kills the process with SIGKILL. -/
def ffmpegKillSignal : String := "SIGKILL"

/-- The exit code Node reports for a process terminated by the abort
signal's forced kill: `null`. -/
def abortedExitCode : Option Int := none

/-- Embeds `FileManager.Configuration.Cleanup.Occasion` (`shared.ts`
lines 419-436). -/
inductive Occasion where
  | ON_EXIT_OR_EXPLICIT
  | ONLY_EXIT
  | ONLY_EXPLICIT
  | NEVER
  deriving Repr, DecidableEq

/-- Embeds `FileManager.Configuration.Cleanup.Ascension` (`shared.ts`
lines 437-446). -/
inductive Ascension where
  | NONE
  | SELF
  deriving Repr, DecidableEq

/-- Embeds `FileManager.Configuration.Cleanup.Inlcude` (sic, `shared.ts`
lines 447-460). -/
inductive Inlcude where
  | ALL_FILES
  | ALL
  | MANAGED_FILES
  deriving Repr, DecidableEq

/-- Embeds the cleanup policy record `FileManager.Configuration.Cleanup`
(`shared.ts` lines 404-417). -/
structure CleanupConfig where
  ascension : Ascension
  whenOccasion : Occasion
  includePolicy : Inlcude
  deriving Repr, DecidableEq

/-- Embeds `FileManager.Status` (`shared.ts` lines 369-378). -/
inductive FMStatus where
  | PENDING
  | READY
  deriving Repr, DecidableEq

/-- A directory entry (`fs.Dirent`) as `getPathsToDelete` consumes it
(`shared.ts` lines 279-310): the source immediately resolves
`entry.parentPath` and `entry.name` to an absolute path `p`, which is
carried here directly, together with the `isDirectory()` flag. -/
structure DirEntry where
  path : List Char
  isDirectory : Bool
  deriving Repr, DecidableEq

/-- A cleanup filter argument.  `includeAll` is the sentinel
`FileManager.FILTER_INCLUDE_ALL` (`shared.ts` line 214), which `cleanup`
recognises by reference equality (line 321); `custom` is any other
caller-supplied predicate over the resolved path and the entry. -/
inductive CleanupFilter where
  | includeAll
  | custom (f : List Char → DirEntry → Bool)

/-- Applies a cleanup filter as `filter(p, entry)` does. -/
def CleanupFilter.apply : CleanupFilter → List Char → DirEntry → Bool
  | .includeAll, _, _ => true
  | .custom f, p, e => f p e

/-- Whether an optional filter argument is (by reference) the
`FILTER_INCLUDE_ALL` sentinel, as tested at `shared.ts` line 321.  A
caller passing no filter (`none`) fails this test even though
`getPathsToDelete` then defaults to the sentinel. -/
def isIncludeAllRef : Option CleanupFilter → Bool
  | some .includeAll => true
  | _ => false

/-- The mutable state of one `Temporary.FileManager` (`shared.ts` lines
213-365): its cleanup configuration, its resolved directory path, the set
of registered paths (a `Set<string>`, modelled as a list with membership),
the `counter` used by `unique`, and the readiness status.  The
finalization registry, exit hooks and the actual `mkdir` are process-level
effects outside this embedding. -/
structure FileManagerState where
  config : CleanupConfig
  path : List Char
  registered : List (List Char)
  counter : ℕ
  status : FMStatus

/-- A freshly constructed, initialized manager for a directory: no
registered paths, counter zero, status READY (`shared.ts` lines 244-277:
the constructor makes the directory and marks the manager ready). -/
def FileManagerState.fresh (config : CleanupConfig) (path : List Char) : FileManagerState :=
  { config := config, path := path, registered := [], counter := 0, status := .READY }

/-- Embeds `FileManager.register` (`shared.ts` lines 348-350). -/
def FileManagerState.register (st : FileManagerState) (p : List Char) : FileManagerState :=
  { st with registered := p :: st.registered }

/-- The filename built by `FileManager.unique` (`shared.ts` lines
340-346) before resolution: optional prefix, then the decimal counter,
then optional suffix.  An empty-string prefix or suffix is falsy in the
source and contributes nothing, exactly like `none` here. -/
def uniqueOut (pre suf : Option (List Char)) (counter : ℕ) : List Char :=
  pre.getD [] ++ renderNat counter ++ suf.getD []

/-- Splits a path on the `/` separator into its segments (the list is
never empty; consecutive or leading separators produce empty segments). -/
def splitOnSlash : List Char → List (List Char)
  | [] => [[]]
  | c :: rest =>
    if c = '/' then [] :: splitOnSlash rest
    else (c :: (splitOnSlash rest).headI) :: (splitOnSlash rest).tail

/-- The segment-normalization pass of Node's posix path resolution,
processing segments left to right over a stack (held in reverse): empty
and `.` segments are dropped, `..` pops the previous segment (or is
dropped at the root), and any other segment is pushed. -/
def resolveSegs (stack : List (List Char)) : List (List Char) → List (List Char)
  | [] => stack
  | seg :: rest =>
    if seg = [] ∨ seg = ['.'] then resolveSegs stack rest
    else if seg = ['.', '.'] then
      match stack with
      | [] => resolveSegs [] rest
      | _ :: stack' => resolveSegs stack' rest
    else resolveSegs (seg :: stack) rest

/-- Joins path segments with `/` separators. -/
def joinSlash : List (List Char) → List Char
  | [] => []
  | [seg] => seg
  | seg :: rest => seg ++ '/' :: joinSlash rest

/-- Normalizes an absolute posix path as Node's path resolution does:
split on separators, collapse empty/`.`/`..` segments, and rebuild from
the root (an empty stack yields the root `/` itself). -/
def normalizeAbs (p : List Char) : List Char :=
  '/' :: joinSlash (resolveSegs [] (splitOnSlash p)).reverse

/-- Models Node's posix `path.resolve(base, out)` for an absolute `base`
(the manager roots here descend from `os.tmpdir()`): an absolute `out`
stands alone, a relative one is joined to `base` with a separator, and
the result is normalized — empty and `.` segments collapse and `..`
segments pop their predecessor, so e.g. `0/../x` and `1/../x` resolve to
the same path. -/
def nodePathResolve (base out : List Char) : List Char :=
  if out.head? = some '/' then normalizeAbs out
  else normalizeAbs (base ++ '/' :: out)

/-- Embeds `FileManager.unique` (`shared.ts` lines 340-346): build the
name from the prefix, the post-incremented counter and the suffix, and
resolve it against the manager's directory. -/
def FileManagerState.unique (st : FileManagerState) (pre suf : Option (List Char)) :
    List Char × FileManagerState :=
  (nodePathResolve st.path (uniqueOut pre suf st.counter), { st with counter := st.counter + 1 })

/-- Embeds `FileManager.create` (`shared.ts` lines 358-364): allocate a
unique path, open it for writing (a filesystem effect outside the state),
register it, and return it. -/
def FileManagerState.create (st : FileManagerState) (pre suf : Option (List Char)) :
    List Char × FileManagerState :=
  let u := st.unique pre suf
  (u.1, u.2.register u.1)

/-- Runs `create` `n` times in sequence with the same prefix and suffix:
the list of returned paths and the final state. -/
def createRun (st : FileManagerState) (pre suf : Option (List Char)) :
    ℕ → List (List Char) × FileManagerState
  | 0 => ([], st)
  | n + 1 =>
    let c := st.create pre suf
    let rest := createRun c.2 pre suf n
    (c.1 :: rest.1, rest.2)

/-- Embeds `FileManager.getPathsToDelete` (`shared.ts` lines 279-310):
depending on the include policy, collect every entry's resolved path, only
non-directory entries' paths, or only non-directory entries whose path is
registered — in each case keeping only paths accepted by the filter. -/
def getPathsToDelete (st : FileManagerState) (entries : List DirEntry)
    (filter : CleanupFilter) : List (List Char) :=
  match st.config.includePolicy with
  | .ALL =>
    entries.filterMap fun e => if filter.apply e.path e then some e.path else none
  | .ALL_FILES =>
    entries.filterMap fun e =>
      if e.isDirectory then none
      else if filter.apply e.path e then some e.path else none
  | .MANAGED_FILES =>
    entries.filterMap fun e =>
      if e.isDirectory ∨ e.path ∉ st.registered then none
      else if filter.apply e.path e then some e.path else none

/-- Embeds `FileManager.cleanup` (`shared.ts` lines 312-333) as the list
of filesystem paths it removes, given the directory's current entries, the
optional filter argument, and the process-wide `exiting` flag.  A
non-ready manager, a NEVER policy, or an ONLY_EXIT policy outside exit
removes nothing.  The two `fsp.rm(this.path, { recursive: true })`
branches remove the manager directory itself together with all of its
entries; otherwise exactly the paths selected by `getPathsToDelete` are
removed. -/
def cleanupDeletions (st : FileManagerState) (entries : List DirEntry)
    (filter : Option CleanupFilter) (exiting : Bool) : List (List Char) :=
  if st.status ≠ FMStatus.READY then []
  else if st.config.whenOccasion = Occasion.NEVER then []
  else if st.config.whenOccasion = Occasion.ONLY_EXIT ∧ ¬exiting then []
  else if st.config.ascension = Ascension.SELF ∧ st.config.includePolicy = Inlcude.ALL ∧
      isIncludeAllRef filter then
    st.path :: entries.map DirEntry.path
  else
    let paths := getPathsToDelete st entries (filter.getD CleanupFilter.includeAll)
    if entries.length = paths.length ∧ st.config.ascension = Ascension.SELF then
      st.path :: entries.map DirEntry.path
    else paths

/-- Embeds `SocketStatus` (`shared.ts` lines 554-568). -/
inductive SocketStatus where
  | PENDING
  | OPEN
  | CLOSED
  deriving Repr, DecidableEq

/-- The state of one `SocketPipe` bridge: its reserved filesystem path and
its status. -/
structure SocketPipeState where
  path : List Char
  status : SocketStatus
  deriving Repr, DecidableEq

/-- Embeds the `SocketPipe` constructor (`shared.ts` lines 615-627): a
unique path with prefix `socket.` is reserved from the provider manager
and the server starts listening.  Registration of the path with the
provider happens only inside the connection callback passed to
`net.createServer` (line 618), not here. -/
def socketPipeConstruct (provider : FileManagerState) :
    SocketPipeState × FileManagerState :=
  let u := provider.unique (some "socket.".data) none
  ({ path := u.1, status := SocketStatus.PENDING }, u.2)

/-- Embeds the `net.createServer` connection callback (`shared.ts` lines
617-621): on the first peer connection the bridge registers its path with
the provider, pipes the streams, and becomes OPEN. -/
def socketPipeOnConnection (sp : SocketPipeState) (provider : FileManagerState) :
    SocketPipeState × FileManagerState :=
  ({ sp with status := SocketStatus.OPEN }, provider.register sp.path)

/-- Renders `String(n)` as a Lean `String`. -/
def renderNatS (n : ℕ) : String := String.mk (renderNat n)

/-- JavaScript's decimal rendering of an integer (the values interpolated
into the filter graph are `Math.trunc`-ed numbers, hence integers). -/
def renderIntS (i : ℤ) : String :=
  if i < 0 then "-" ++ renderNatS i.natAbs else renderNatS i.toNat

/-- The three I/O endpoints of `FFmpegJob.IO.Paths` (`shared.ts` lines
800-804). -/
structure IOPathsS where
  main : String
  bubble : String
  out : String
  deriving Repr, DecidableEq

/-- The fields of `ChatbubbleFFmpegOptions` (`shared.ts` lines 49-66)
consumed by `FFmpegJob.buildArguments`: the input file's MIME type, the
target format, quality and crop, and the overlay's transparency flag and
bounds.  The source declares `crop` optional but dereferences it
unconditionally (line 943), so a job built through `buildArguments` always
carries one. -/
structure FFmpegOptionsArgs where
  fileMime : String
  targetType : ChatbubbleExportFormat
  quality : Option ℚ
  crop : Rect ℤ
  transparent : Bool
  bounds : Rect ℤ

/-- Embeds `outputSpecificationToFfmpegArguments` (`shared.ts` lines
910-931).  `platform` is the ambient `os.platform()` the source reads for
the MP4 hardware-codec branch; `quality` is accepted and unused (source
TODO). -/
def outputSpecificationToFfmpegArguments (platform : String)
    (type : ChatbubbleExportFormat) (quality : Option ℚ) : List String :=
  match type with
  | .WEBM =>
    ["-c:a", "libvorbis", "-c:v", "libvpx", "-f", "webm", "-auto-alt-ref", "0",
      "-cpu-used", "-5", "-deadline", "realtime"]
  | .MP4 =>
    ["-c:v"] ++
      (if platform = "darwin" then
        ["hevc_videotoolbox", "-alpha_quality", "1", "-vtag", "hvc1", "-c:a", "aac",
          "-pix_fmt", "yuva444p", "-profile:v", "main", "-realtime", "true"]
      else []) ++
      ["-f", "mp4", "-movflags", "+faststart"]
  | .GIF => ["-f", "gif"]
  | .PNG => ["-f", "apng"]

/-- Embeds `FFmpegJob.buildArguments` (`shared.ts` lines 933-962): the
complete ffmpeg argument vector, including the filter graph that crops the
primary input to the target rectangle, merges the overlay (by alpha
extraction for a transparent fill, by positioning otherwise), and appends
the palette stage for GIF output.  There is no validation of the crop
rectangle anywhere on this path. -/
def buildArguments (platform : String) (io : IOPathsS) (opts : FFmpegOptionsArgs) :
    List String :=
  let img2vid := jsStartsWith opts.fileMime "image" && jsStartsWith opts.targetType.mime "video"
  let filterCrop :=
    "[0]crop=" ++ renderIntS opts.crop.width ++ ":" ++ renderIntS opts.crop.height ++ ":" ++
      renderIntS opts.crop.x ++ ":" ++ renderIntS opts.crop.y ++ ":exact=1[cropped];"
  let filterOverlay :=
    if opts.transparent then
      "[1]alphaextract[trans];[cropped][trans]alphamerge[overlaid];"
    else
      "[cropped][1]overlay=" ++ renderIntS opts.bounds.x ++ ":" ++ renderIntS opts.bounds.y ++
        "[overlaid];"
  let filterPalette :=
    if opts.targetType = ChatbubbleExportFormat.GIF then
      "[overlaid]split=[a][b];[a]palettegen[pal];[b][pal]paletteuse=dither=sierra2_4a[paletted];"
    else ""
  let lastLabel :=
    if opts.targetType = ChatbubbleExportFormat.GIF then "paletted" else "overlaid"
  ["-progress", "-", "-nostats", "-y"] ++
    (if img2vid then ["-loop", "1"] else []) ++
    ["-i", io.main] ++
    ["-f", "rawvideo", "-pix_fmt", "rgba", "-s",
      renderIntS opts.bounds.width ++ "x" ++ renderIntS opts.bounds.height, "-i", io.bubble] ++
    ["-filter_complex", filterCrop ++ filterOverlay ++ filterPalette] ++
    ["-map", "[" ++ lastLabel ++ "]"] ++
    ["-map", "0:a?"] ++
    outputSpecificationToFfmpegArguments platform opts.targetType opts.quality ++
    (if img2vid then ["-t", "60"] else []) ++
    [io.out]

/-- A delegated-encode request whose crop rectangle is degenerate (zero
width and height): the failing input for the bad-geometry requirement. -/
def degenerateCropOptions : FFmpegOptionsArgs :=
  { fileMime := "image/png"
    targetType := ChatbubbleExportFormat.PNG
    quality := none
    crop := { x := 0, y := 0, width := 0, height := 0 }
    transparent := true
    bounds := { x := 0, y := 0, width := 10, height := 10 } }

/-- I/O endpoints for the degenerate-crop job. -/
def degenerateCropPaths : IOPathsS :=
  { main := "/tmp/vencord/chatbubble/ffmpeg/main0"
    bubble := "/tmp/vencord/chatbubble/ffmpeg/bubble1"
    out := "/tmp/vencord/chatbubble/ffmpeg/out2" }

theorem charVal_digitChar : ∀ d, d < 10 → charVal (digitChar d) = d := by decide

theorem isDigit_digitChar : ∀ d, d < 10 → (digitChar d).isDigit = true := by decide

theorem renderNat_ne_nil (n : ℕ) : renderNat n ≠ [] := by
  rw [renderNat]
  split <;> simp

theorem renderNat_all_digits (n : ℕ) : ∀ c ∈ renderNat n, c.isDigit = true := by
  induction n using renderNat.induct with
  | case1 n h =>
    rw [renderNat, if_pos h]
    intro c hc
    rw [List.mem_singleton] at hc
    exact hc ▸ isDigit_digitChar n h
  | case2 n h ih =>
    rw [renderNat, if_neg h]
    intro c hc
    rcases List.mem_append.mp hc with h1 | h1
    · exact ih c h1
    · rw [List.mem_singleton] at h1
      exact h1 ▸ isDigit_digitChar _ (Nat.mod_lt _ (by omega))

theorem digitsVal_snoc (s : List Char) (c : Char) :
    digitsVal (s ++ [c]) = 10 * digitsVal s + charVal c := by
  unfold digitsVal
  rw [List.foldl_append]
  rfl

theorem digitsVal_renderNat (n : ℕ) : digitsVal (renderNat n) = n := by
  induction n using renderNat.induct with
  | case1 n h =>
    rw [renderNat, if_pos h]
    show 10 * 0 + charVal (digitChar n) = n
    rw [charVal_digitChar n h]
    omega
  | case2 n h ih =>
    rw [renderNat, if_neg h, digitsVal_snoc, ih,
      charVal_digitChar _ (Nat.mod_lt _ (by omega))]
    omega

theorem renderNat_injective {a b : ℕ} (h : renderNat a = renderNat b) : a = b := by
  have ha := digitsVal_renderNat a
  have hb := digitsVal_renderNat b
  rw [← ha, ← hb, h]

theorem digitsVal_replicate_zero (k : ℕ) (s : List Char) :
    digitsVal (List.replicate k '0' ++ s) = digitsVal s := by
  induction k with
  | zero => rfl
  | succ k ih =>
    rw [List.replicate_succ, List.cons_append]
    show (List.replicate k '0' ++ s).foldl (fun a c => 10 * a + charVal c) (10 * 0 + charVal '0') =
      digitsVal s
    have : (10 * 0 + charVal '0') = 0 := by decide
    rw [this]
    exact ih

theorem pad2_ne_nil (n : ℕ) : pad2 n ≠ [] := by
  unfold pad2 padStart2
  intro h
  rcases List.append_eq_nil.mp h with ⟨-, h2⟩
  exact renderNat_ne_nil n h2

theorem pad2_all_digits (n : ℕ) : ∀ c ∈ pad2 n, c.isDigit = true := by
  unfold pad2 padStart2
  intro c hc
  rcases List.mem_append.mp hc with h1 | h1
  · rw [List.eq_of_mem_replicate h1]
    decide
  · exact renderNat_all_digits n c h1

theorem digitsVal_pad2 (n : ℕ) : digitsVal (pad2 n) = n := by
  unfold pad2 padStart2
  rw [digitsVal_replicate_zero, digitsVal_renderNat]

theorem takeWhile_digits_append (r rest : List Char) (h : ∀ c ∈ r, c.isDigit = true)
    (h2 : ∀ c, rest.head? = some c → c.isDigit = false) :
    (r ++ rest).takeWhile Char.isDigit = r ∧ (r ++ rest).dropWhile Char.isDigit = rest := by
  induction r with
  | nil =>
    simp only [List.nil_append]
    cases rest with
    | nil => exact ⟨rfl, rfl⟩
    | cons sep t =>
      have hsep : sep.isDigit = false := h2 sep rfl
      rw [List.takeWhile_cons, List.dropWhile_cons, hsep]
      exact ⟨rfl, rfl⟩
  | cons c r' ih =>
    have hc : c.isDigit = true := h c (List.mem_cons_self c r')
    have ih' := ih (fun d hd => h d (List.mem_cons_of_mem c hd))
    rw [List.cons_append, List.takeWhile_cons, List.dropWhile_cons, hc]
    simp only [if_true]
    exact ⟨by rw [ih'.1], ih'.2⟩

theorem digitRuns_run_append (r : List Char) (sep : Char) (rest : List Char)
    (hne : r ≠ []) (h : ∀ c ∈ r, c.isDigit = true) (hsep : sep.isDigit = false) :
    digitRuns (r ++ sep :: rest) = r :: digitRuns rest := by
  cases r with
  | nil => exact absurd rfl hne
  | cons c r' =>
    have hc : c.isDigit = true := h c (List.mem_cons_self c r')
    have hsplit := takeWhile_digits_append r' (sep :: rest)
      (fun d hd => h d (List.mem_cons_of_mem c hd)) (fun d hd => by
        rw [List.head?_cons, Option.some_inj] at hd
        exact hd ▸ hsep)
    rw [List.cons_append, digitRuns, if_pos hc, hsplit.1, hsplit.2, digitRuns, if_neg]
    rw [hsep]
    exact Bool.false_ne_true

theorem digitRuns_of_digits (r : List Char) (hne : r ≠ [])
    (h : ∀ c ∈ r, c.isDigit = true) : digitRuns r = [r] := by
  cases r with
  | nil => exact absurd rfl hne
  | cons c r' =>
    have hc : c.isDigit = true := h c (List.mem_cons_self c r')
    have hsplit := takeWhile_digits_append r' []
      (fun d hd => h d (List.mem_cons_of_mem c hd)) (fun d hd => by cases hd)
    rw [List.append_nil] at hsplit
    rw [digitRuns, if_pos hc, hsplit.1, hsplit.2, digitRuns]

/-- C10: formatting a microsecond count below 24 hours with
`ChatbubbleFFmpegTime.toString` and parsing the result with
`ChatbubbleFFmpegTime.parse` recovers the count exactly; a count of 24
hours or more makes `toString` throw instead of returning a string. -/
theorem c10_ffmpeg_time_roundtrip (t : ℕ) :
    (t < 86400000000 → ∃ str, ChatbubbleFFmpegTime.toString t = some str ∧
        ChatbubbleFFmpegTime.parse str = some t) ∧
    (86400000000 ≤ t → ChatbubbleFFmpegTime.toString t = none) := by
  constructor
  · intro ht
    have ht4 : t / 1000000 / 60 / 60 / 24 = 0 := by
      rw [Nat.div_div_eq_div_mul, Nat.div_div_eq_div_mul, Nat.div_div_eq_div_mul]
      exact Nat.div_eq_of_lt (by omega)
    refine ⟨pad2 (t / 1000000 / 60 / 60 % 24) ++
        ':' :: (pad2 (t / 1000000 / 60 % 60) ++
        ':' :: (pad2 (t / 1000000 % 60) ++ '.' :: pad2 (t % 1000000))), ?_, ?_⟩
    · show (if t / 1000000 / 60 / 60 / 24 ≠ 0 then none else
        some (pad2 (t / 1000000 / 60 / 60 % 24) ++ ':' :: pad2 (t / 1000000 / 60 % 60) ++
          ':' :: pad2 (t / 1000000 % 60) ++ '.' :: pad2 (t % 1000000))) = _
      rw [if_neg (not_ne_iff.mpr ht4)]
      simp only [List.cons_append, List.append_assoc]
    · have hruns : digitRuns (pad2 (t / 1000000 / 60 / 60 % 24) ++
          ':' :: (pad2 (t / 1000000 / 60 % 60) ++
          ':' :: (pad2 (t / 1000000 % 60) ++ '.' :: pad2 (t % 1000000)))) =
          [pad2 (t / 1000000 / 60 / 60 % 24), pad2 (t / 1000000 / 60 % 60),
            pad2 (t / 1000000 % 60), pad2 (t % 1000000)] := by
        rw [digitRuns_run_append _ _ _ (pad2_ne_nil _) (pad2_all_digits _) (by decide),
          digitRuns_run_append _ _ _ (pad2_ne_nil _) (pad2_all_digits _) (by decide),
          digitRuns_run_append _ _ _ (pad2_ne_nil _) (pad2_all_digits _) (by decide),
          digitRuns_of_digits _ (pad2_ne_nil _) (pad2_all_digits _)]
      show (if (digitRuns (pad2 (t / 1000000 / 60 / 60 % 24) ++
            ':' :: (pad2 (t / 1000000 / 60 % 60) ++
            ':' :: (pad2 (t / 1000000 % 60) ++ '.' :: pad2 (t % 1000000))))).isEmpty then none
          else some (parseFold 0 3 ((digitRuns (pad2 (t / 1000000 / 60 / 60 % 24) ++
            ':' :: (pad2 (t / 1000000 / 60 % 60) ++
            ':' :: (pad2 (t / 1000000 % 60) ++ '.' :: pad2 (t % 1000000))))).map digitsVal))) =
          some t
      rw [hruns]
      simp only [List.map_cons, List.map_nil, digitsVal_pad2, List.isEmpty_cons,
        Bool.false_eq_true, if_false]
      show some (parseFold 0 3 _) = some t
      simp only [parseFold]
      norm_num [magAt]
      omega
  · intro ht
    show (if t / 1000000 / 60 / 60 / 24 ≠ 0 then none else _) = none
    rw [if_pos]
    rw [Nat.div_div_eq_div_mul, Nat.div_div_eq_div_mul, Nat.div_div_eq_div_mul]
    omega

/-- Witness for C10 at one hour, one minute, one second and one
microsecond. -/
theorem c10_ffmpeg_time_roundtrip_witness :
    3661000001 < 86400000000 ∧
      ∃ str, ChatbubbleFFmpegTime.toString 3661000001 = some str ∧
        ChatbubbleFFmpegTime.parse str = some 3661000001 :=
  ⟨by norm_num, (c10_ffmpeg_time_roundtrip 3661000001).1 (by norm_num)⟩

theorem fixedPrecisionBigIntDivide_eq (m d : ℕ) (hd : d ≠ 0) :
    fixedPrecisionBigIntDivide m d 5 = (((10 ^ 5 * m) / d : ℕ) : ℚ) / ((10 ^ 5 : ℕ) : ℚ) := by
  unfold fixedPrecisionBigIntDivide
  have hsplit : 10 ^ 5 * m = m % d * 10 ^ 5 + m / d * 10 ^ 5 * d := by
    conv_lhs => rw [← Nat.div_add_mod m d]
    ring
  rw [hsplit, Nat.add_mul_div_right _ _ (Nat.pos_of_ne_zero hd)]
  push_cast
  field_simp
  ring

theorem fixedPrecisionBigIntDivide_mono (d : ℕ) (hd : d ≠ 0) {m1 m2 : ℕ} (h : m1 ≤ m2) :
    fixedPrecisionBigIntDivide m1 d 5 ≤ fixedPrecisionBigIntDivide m2 d 5 := by
  rw [fixedPrecisionBigIntDivide_eq _ _ hd, fixedPrecisionBigIntDivide_eq _ _ hd]
  refine (div_le_div_right (by norm_num)).mpr ?_
  exact_mod_cast Nat.div_le_div_right (Nat.mul_le_mul_left _ h)

theorem clamp01_nonneg (v : ℚ) : 0 ≤ clamp v 0 1 :=
  le_min (by norm_num) (le_max_left 0 v)

theorem clamp01_le_one (v : ℚ) : clamp v 0 1 ≤ 1 := min_le_left 1 _

theorem clamp_mono {a b lo hi : ℚ} (h : a ≤ b) : clamp a lo hi ≤ clamp b lo hi :=
  min_le_min (le_refl hi) (max_le_max (le_refl lo) h)

theorem stdoutDataHandler_events (st : FFmpegJobProgressState) (chunk : List Char) :
    (stdoutDataHandler st chunk).2 = (chunkProgress st.foundMainLength chunk).toList ∧
    (stdoutDataHandler st chunk).1.foundMainLength = st.foundMainLength := by
  rcases st with ⟨fml, p⟩
  cases fml with
  | none => exact ⟨rfl, rfl⟩
  | some d =>
    cases h : findOutTimeUs chunk with
    | none => simp [stdoutDataHandler, chunkProgress, h]
    | some m =>
      by_cases hd : d = 0 <;> simp [stdoutDataHandler, chunkProgress, h, hd]

theorem emittedProgress_eq_filterMap (fml : Option ℕ) (chunks : List (List Char)) :
    emittedProgress fml chunks = chunks.filterMap (chunkProgress fml) := by
  suffices h : ∀ (chunks : List (List Char)) (st : FFmpegJobProgressState),
      (runStdoutChunks st chunks).2 = chunks.filterMap (chunkProgress st.foundMainLength) by
    exact h chunks _
  intro chunks
  induction chunks with
  | nil => intro st; rfl
  | cons c cs ih =>
    intro st
    have hev := stdoutDataHandler_events st c
    simp only [runStdoutChunks, List.filterMap_cons, ih, hev.1, hev.2]
    cases chunkProgress st.foundMainLength c <;> rfl

theorem chunkProgress_some_eq (d : ℕ) (hd : d ≠ 0) (chunk : List Char) :
    chunkProgress (some d) chunk =
      (findOutTimeUs chunk).map (fun m => clamp (fixedPrecisionBigIntDivide m d 5) 0 1) := by
  unfold chunkProgress
  cases findOutTimeUs chunk <;> simp [hd]

/-- C4 counterexample: with the primary duration discovered as 1000 µs, a
stdout chunk reporting `out_time_us=500` followed by one reporting
`out_time_us=100` makes the job emit the decreasing progress sequence
`[1/2, 1/10]`, so the emitted fractions are not monotonically
non-decreasing for every chunk sequence. -/
theorem c4_progress_monotone_counterexample :
    ¬ List.Chain' (· ≤ ·) (emittedProgress (some 1000)
      ["out_time_us=500\n".data, "out_time_us=100\n".data]) := by
  have h1 : findOutTimeUs "out_time_us=500\n".data = some 500 := by decide
  have h2 : findOutTimeUs "out_time_us=100\n".data = some 100 := by decide
  have hv1 : fixedPrecisionBigIntDivide 500 1000 5 = 1 / 2 := by
    rw [fixedPrecisionBigIntDivide_eq 500 1000 (by norm_num)]
    norm_num
  have hv2 : fixedPrecisionBigIntDivide 100 1000 5 = 1 / 10 := by
    rw [fixedPrecisionBigIntDivide_eq 100 1000 (by norm_num)]
    norm_num
  rw [emittedProgress_eq_filterMap, List.filterMap_cons, List.filterMap_cons,
    List.filterMap_nil]
  simp only [chunkProgress, h1, h2, hv1, hv2]
  norm_num [clamp]

/-- C4 (amended): every emitted progress fraction lies in `[0, 1]`, and
the emitted sequence is monotonically non-decreasing provided the
`out_time_us` values extracted from the successive chunks are themselves
non-decreasing (the handler clamps but does not enforce monotonicity
against a regressing process report). -/
theorem c4_progress_clamped_and_conditionally_monotone (fml : Option ℕ)
    (chunks : List (List Char)) :
    (∀ p ∈ emittedProgress fml chunks, 0 ≤ p ∧ p ≤ 1) ∧
    (∀ d, fml = some d → List.Chain' (· ≤ ·) (chunks.filterMap findOutTimeUs) →
      List.Chain' (· ≤ ·) (emittedProgress fml chunks)) := by
  rw [emittedProgress_eq_filterMap]
  constructor
  · intro p hp
    obtain ⟨chunk, -, hcp⟩ := List.mem_filterMap.mp hp
    rcases fml with - | d
    · cases hcp
    · cases hfind : findOutTimeUs chunk with
      | none =>
        simp only [chunkProgress, hfind] at hcp
        exact Option.noConfusion hcp
      | some m =>
        by_cases hd : d = 0
        · simp only [chunkProgress, hfind, hd, if_true] at hcp
          exact Option.noConfusion hcp
        · simp only [chunkProgress, hfind, hd, if_false, Option.some_inj] at hcp
          exact hcp ▸ ⟨clamp01_nonneg _, clamp01_le_one _⟩
  · rintro d rfl hmono
    by_cases hd : d = 0
    · have hnil : chunks.filterMap (chunkProgress (some d)) = [] := by
        refine List.filterMap_eq_nil.mpr fun chunk _ => ?_
        cases hfind : findOutTimeUs chunk with
        | none => simp only [chunkProgress, hfind]
        | some m => simp only [chunkProgress, hfind, hd, if_true]
      rw [hnil]
      exact List.chain'_nil
    · have hfn : chunkProgress (some d) = fun chunk =>
          (findOutTimeUs chunk).map
            (fun m => clamp (fixedPrecisionBigIntDivide m d 5) 0 1) :=
        funext fun chunk => chunkProgress_some_eq d hd chunk
      rw [hfn, ← List.map_filterMap]
      refine (List.chain'_map _).mpr ?_
      exact hmono.imp fun _ _ h => clamp_mono (fixedPrecisionBigIntDivide_mono d hd h)

/-- Witness for the amended C4 at duration 1000 µs and two chunks with
non-decreasing `out_time_us` values 500 and 900. -/
theorem c4_progress_witness :
    (∀ p ∈ emittedProgress (some 1000)
        ["out_time_us=500\n".data, "out_time_us=900\n".data], 0 ≤ p ∧ p ≤ 1) ∧
    List.Chain' (· ≤ ·) (emittedProgress (some 1000)
        ["out_time_us=500\n".data, "out_time_us=900\n".data]) := by
  refine ⟨(c4_progress_clamped_and_conditionally_monotone (some 1000)
      ["out_time_us=500\n".data, "out_time_us=900\n".data]).1,
    (c4_progress_clamped_and_conditionally_monotone (some 1000)
      ["out_time_us=500\n".data, "out_time_us=900\n".data]).2 1000 rfl ?_⟩
  have hfm : List.filterMap findOutTimeUs
      ["out_time_us=500\n".data, "out_time_us=900\n".data] = [500, 900] := by decide
  rw [hfm]
  exact List.chain'_pair.mpr (by norm_num)

/-- C1 counterexample: a job whose process was force-killed by the abort
signal (Node reports exit code `null`) does receive a `failure` event —
the exit/close handlers treat any non-zero code as a failure — so a
Failed event *is* emitted for a superseded or cancelled job, contrary to
the claim. -/
theorem c1_aborted_job_counterexample :
    TerminalEvent.failure ∈ processTerminationEvents abortedExitCode := by decide

/-- C1 (amended): aborting a running job (supersession by a new job or
explicit cancellation) force-kills its process with SIGKILL; no success
event is ever emitted for it afterwards (success requires a clean exit
code 0), but a failure event *is* emitted, so the aborted job resolves to
failure rather than to neither outcome. -/
theorem c1_abort_kills_no_success_but_failure (code : Option Int) (h : code ≠ some 0) :
    TerminalEvent.success ∉ processTerminationEvents code ∧
    TerminalEvent.failure ∈ processTerminationEvents code ∧
    ffmpegKillSignal = "SIGKILL" := by
  unfold processTerminationEvents processExitHandlerEvents processCloseHandlerEvents
  rw [if_pos h, if_neg h]
  refine ⟨?_, by simp, rfl⟩
  intro hmem
  simp only [List.cons_append, List.nil_append, List.mem_cons, List.not_mem_nil] at hmem
  rcases hmem with h1 | h1 | h1 <;> first | cases h1 | exact h1

/-- Witness for the amended C1 at the aborted process outcome. -/
theorem c1_abort_witness :
    (abortedExitCode ≠ some 0) ∧
      (TerminalEvent.success ∉ processTerminationEvents abortedExitCode ∧
        TerminalEvent.failure ∈ processTerminationEvents abortedExitCode ∧
        ffmpegKillSignal = "SIGKILL") :=
  ⟨by decide, c1_abort_kills_no_success_but_failure abortedExitCode (by decide)⟩

/-- C6: For every pair of crop corner points given in arbitrary order, the
derived crop rectangle is the axis-aligned bounding box: its width and
height are non-negative and its `{x, y}` offset is the element-wise
minimum of the two points. -/
theorem c6_cropped_rectangle_is_bounding_box (a b : ℚ × ℚ) :
    0 ≤ (getCroppedRectangle a b).width ∧
    0 ≤ (getCroppedRectangle a b).height ∧
    (getCroppedRectangle a b).x = min a.1 b.1 ∧
    (getCroppedRectangle a b).y = min a.2 b.2 := by
  unfold getCroppedRectangle
  split_ifs with h1 h2 h2 <;>
    refine ⟨by simp only []; linarith, by simp only []; linarith, ?_, ?_⟩ <;>
    simp only [min_def] <;> split_ifs <;> first | rfl | linarith

/-- C5: The I/O strategy selector returns the temp-file strategy exactly
when the input is GIF, or the input is video and the output is GIF, or the
output is MP4 or WEBM; otherwise it returns the streaming strategy.  In
particular a GIF input selects temp files for every output format and any
byte count, and a PNG input exported to PNG selects streaming. -/
theorem c5_choose_characterisation :
    (∀ (inputMime : String) (inputBytes : ℕ) (exportType : ChatbubbleExportFormat),
      choose inputMime inputBytes exportType = IOMethod.TemporaryFiles ↔
        (inputMime = "image/gif" ∨
          (jsStartsWith inputMime "video" ∧ exportType = ChatbubbleExportFormat.GIF) ∨
          exportType = ChatbubbleExportFormat.MP4 ∨
          exportType = ChatbubbleExportFormat.WEBM)) ∧
    (∀ (inputBytes : ℕ) (exportType : ChatbubbleExportFormat),
      choose "image/gif" inputBytes exportType = IOMethod.TemporaryFiles) ∧
    (∀ inputBytes : ℕ,
      choose "image/png" inputBytes ChatbubbleExportFormat.PNG = IOMethod.Streaming) := by
  refine ⟨fun inputMime inputBytes exportType => ?_, fun inputBytes exportType => ?_,
    fun inputBytes => ?_⟩
  · unfold choose
    split_ifs with h
    · simpa [ChatbubbleExportFormat.mime] using h
    · simp only [ChatbubbleExportFormat.mime] at h
      simpa using h
  · unfold choose
    rw [if_pos]
    exact Or.inl rfl
  · unfold choose
    rw [if_neg]
    decide

/-- C2: the degenerate crop rectangle is not rejected — `buildArguments`
(reached unconditionally from `ffmpeg` via `FFmpegJob.for`) embeds the
zero-area crop directly into the encoder's filter-graph argument, so the
job is spawned with `crop=0:0:0:0` rather than failing before start. -/
theorem c2_degenerate_crop_reaches_encoder :
    degenerateCropOptions.crop.width = 0 ∧ degenerateCropOptions.crop.height = 0 ∧
    buildArguments "linux" degenerateCropPaths degenerateCropOptions =
      ["-progress", "-", "-nostats", "-y", "-i", "/tmp/vencord/chatbubble/ffmpeg/main0",
        "-f", "rawvideo", "-pix_fmt", "rgba", "-s", "10x10", "-i",
        "/tmp/vencord/chatbubble/ffmpeg/bubble1", "-filter_complex",
        "[0]crop=0:0:0:0:exact=1[cropped];[1]alphaextract[trans];[cropped][trans]alphamerge[overlaid];",
        "-map", "[overlaid]", "-map", "0:a?", "-f", "apng",
        "/tmp/vencord/chatbubble/ffmpeg/out2"] := by
  have r0 : renderNat 0 = ['0'] := by rw [renderNat]; decide
  have r1 : renderNat 1 = ['1'] := by rw [renderNat]; decide
  have r10 : renderNat 10 = ['1', '0'] := by
    rw [renderNat, if_neg (by norm_num)]
    norm_num
    rw [r1]
    decide
  have hi0 : renderIntS 0 = "0" := by
    simp only [renderIntS, renderNatS]
    norm_num
    rw [r0]
  have hi10 : renderIntS 10 = "10" := by
    simp only [renderIntS, renderNatS]
    have ht : Int.toNat 10 = 10 := rfl
    rw [ht, r10, if_neg (by norm_num)]
  refine ⟨rfl, rfl, ?_⟩
  simp only [buildArguments, degenerateCropOptions, degenerateCropPaths, jsStartsWith,
    outputSpecificationToFfmpegArguments, ChatbubbleExportFormat.mime, hi0, hi10]
  decide

/-- C3: constructing a socket bridge registers nothing with the providing
file manager — the registered set is unchanged by construction, and the
bridge's path enters it only when the connection callback runs.  A bridge
whose peer never connects therefore leaves its socket path unregistered. -/
theorem c3_socket_registration_requires_connection (provider : FileManagerState) :
    ((socketPipeConstruct provider).2.registered = provider.registered) ∧
    ((socketPipeConstruct provider).1.path ∈
      (socketPipeOnConnection (socketPipeConstruct provider).1
        (socketPipeConstruct provider).2).2.registered) :=
  ⟨rfl, List.mem_cons_self _ _⟩

theorem length_filterMap_eq_all_some {α β : Type} {f : α → Option β} :
    ∀ {l : List α}, (l.filterMap f).length = l.length → ∀ x ∈ l, ∃ y, f x = some y := by
  intro l
  induction l with
  | nil => intro _ x hx; cases hx
  | cons a t ih =>
    intro h x hx
    cases hfa : f a with
    | none =>
      simp only [List.filterMap_cons, hfa, List.length_cons] at h
      have hle := List.length_filterMap_le f t
      omega
    | some b =>
      simp only [List.filterMap_cons, hfa, List.length_cons, Nat.add_right_cancel_iff] at h
      rcases List.mem_cons.mp hx with rfl | hx'
      · exact ⟨b, hfa⟩
      · exact ih h x hx'

/-- C7: with the include policy restricted to managed files, every path a
cleanup sweep deletes is either a path registered with the manager or the
manager's own directory (which the manager itself created in its
constructor under the default make-directory configuration); entries of
the directory that the manager did not register are never deleted. -/
theorem c7_cleanup_deletes_only_managed (st : FileManagerState) (entries : List DirEntry)
    (filter : Option CleanupFilter) (exiting : Bool)
    (hpol : st.config.includePolicy = Inlcude.MANAGED_FILES) :
    ∀ p ∈ cleanupDeletions st entries filter exiting,
      p ∈ st.registered ∨ p = st.path := by
  intro p hp
  simp only [cleanupDeletions] at hp
  have hmanaged : ∀ e ∈ entries, ∀ q,
      (if e.isDirectory ∨ e.path ∉ st.registered then none
        else if (filter.getD CleanupFilter.includeAll).apply e.path e then some e.path
        else none) = some q → q ∈ st.registered := by
    intro e _ q hq
    by_cases hcond : e.isDirectory ∨ e.path ∉ st.registered
    · rw [if_pos hcond] at hq
      exact Option.noConfusion hq
    · rw [if_neg hcond] at hq
      push_neg at hcond
      by_cases hfil : (filter.getD CleanupFilter.includeAll).apply e.path e
      · rw [if_pos hfil, Option.some_inj] at hq
        exact hq ▸ hcond.2
      · rw [if_neg hfil] at hq
        exact Option.noConfusion hq
  split_ifs at hp with h1 h2 h3 h4 h5
  · cases hp
  · cases hp
  · cases hp
  · exact absurd (hpol ▸ h4.2.1) (by decide)
  · rcases List.mem_cons.mp hp with rfl | hp'
    · exact Or.inr rfl
    · obtain ⟨e, he, rfl⟩ := List.mem_map.mp hp'
      have hlen : (List.filterMap (fun e =>
          if e.isDirectory ∨ e.path ∉ st.registered then none
          else if (filter.getD CleanupFilter.includeAll).apply e.path e then some e.path
          else none) entries).length = entries.length := by
        have hl := h5.1
        simp only [getPathsToDelete, hpol] at hl
        omega
      obtain ⟨q, hq⟩ := length_filterMap_eq_all_some hlen e he
      have hqreg := hmanaged e he q hq
      have hqe : q = e.path := by
        by_cases hcond : e.isDirectory ∨ e.path ∉ st.registered
        · rw [if_pos hcond] at hq
          exact Option.noConfusion hq
        · rw [if_neg hcond] at hq
          by_cases hfil : (filter.getD CleanupFilter.includeAll).apply e.path e
          · rw [if_pos hfil, Option.some_inj] at hq
            exact hq.symm
          · rw [if_neg hfil] at hq
            exact Option.noConfusion hq
      exact Or.inl (hqe ▸ hqreg)
  · simp only [getPathsToDelete, hpol] at hp
    obtain ⟨e, he, hq⟩ := List.mem_filterMap.mp hp
    exact Or.inl (hmanaged e he p hq)

/-- Witness for C7: a manager with one registered file `/t/a` cleaning a
directory that also holds an unmanaged file `/t/b` deletes only paths
that are registered or the manager root. -/
theorem c7_cleanup_witness :
    ((FileManagerState.fresh
        ⟨Ascension.SELF, Occasion.ON_EXIT_OR_EXPLICIT, Inlcude.MANAGED_FILES⟩
        "/t".data).register "/t/a".data).config.includePolicy = Inlcude.MANAGED_FILES ∧
    ∀ p ∈ cleanupDeletions
        ((FileManagerState.fresh
          ⟨Ascension.SELF, Occasion.ON_EXIT_OR_EXPLICIT, Inlcude.MANAGED_FILES⟩
          "/t".data).register "/t/a".data)
        [⟨"/t/a".data, false⟩, ⟨"/t/b".data, false⟩] none false,
      p ∈ ((FileManagerState.fresh
          ⟨Ascension.SELF, Occasion.ON_EXIT_OR_EXPLICIT, Inlcude.MANAGED_FILES⟩
          "/t".data).register "/t/a".data).registered ∨
        p = ((FileManagerState.fresh
          ⟨Ascension.SELF, Occasion.ON_EXIT_OR_EXPLICIT, Inlcude.MANAGED_FILES⟩
          "/t".data).register "/t/a".data).path :=
  ⟨rfl, c7_cleanup_deletes_only_managed _ _ none false rfl⟩

theorem uniqueOut_inj (pre suf : Option (List Char)) {i j : ℕ}
    (h : uniqueOut pre suf i = uniqueOut pre suf j) : i = j := by
  unfold uniqueOut at h
  exact renderNat_injective (List.append_cancel_left (List.append_cancel_right h))

theorem splitOnSlash_ne_nil (l : List Char) : splitOnSlash l ≠ [] := by
  cases l with
  | nil => simp [splitOnSlash]
  | cons c rest =>
    simp only [splitOnSlash]
    split <;> simp

theorem splitOnSlash_no_slash {l : List Char} (h : '/' ∉ l) : splitOnSlash l = [l] := by
  induction l with
  | nil => rfl
  | cons c rest ih =>
    rw [List.mem_cons, not_or] at h
    simp only [splitOnSlash, ih h.2]
    rw [if_neg (fun hc => h.1 hc.symm)]
    rfl

theorem splitOnSlash_cons_slash (rest : List Char) :
    splitOnSlash ('/' :: rest) = [] :: splitOnSlash rest := rfl

theorem splitOnSlash_cons_ne {c : Char} (rest : List Char) (hc : ¬c = '/') :
    splitOnSlash (c :: rest) =
      (c :: (splitOnSlash rest).headI) :: (splitOnSlash rest).tail := by
  simp only [splitOnSlash]
  rw [if_neg hc]

theorem splitOnSlash_append_slash (x y : List Char) :
    splitOnSlash (x ++ '/' :: y) = splitOnSlash x ++ splitOnSlash y := by
  induction x with
  | nil =>
    rw [List.nil_append, splitOnSlash_cons_slash]
    rfl
  | cons c x' ih =>
    by_cases hc : c = '/'
    · subst hc
      rw [List.cons_append, splitOnSlash_cons_slash, splitOnSlash_cons_slash, ih]
      rfl
    · rw [List.cons_append, splitOnSlash_cons_ne _ hc, splitOnSlash_cons_ne _ hc, ih]
      cases hx : splitOnSlash x' with
      | nil => exact absurd hx (splitOnSlash_ne_nil x')
      | cons seg segs => rfl

theorem resolveSegs_append (l1 l2 : List (List Char)) :
    ∀ stack, resolveSegs stack (l1 ++ l2) = resolveSegs (resolveSegs stack l1) l2 := by
  induction l1 with
  | nil => intro stack; rfl
  | cons seg rest ih =>
    intro stack
    simp only [List.cons_append, resolveSegs]
    split_ifs with h1 h2
    · exact ih stack
    · cases stack with
      | nil => exact ih []
      | cons a stack' => exact ih stack'
    · exact ih (seg :: stack)

theorem joinSlash_append_singleton (X : List (List Char)) (o : List Char) (h : X ≠ []) :
    joinSlash (X ++ [o]) = joinSlash X ++ '/' :: o := by
  induction X with
  | nil => exact absurd rfl h
  | cons x X' ih =>
    cases X' with
    | nil => rfl
    | cons x2 X'' =>
      have hih := ih (by simp)
      simp only [List.cons_append] at hih ⊢
      simp only [joinSlash, hih, List.append_assoc, List.cons_append]

theorem head?_ne_slash_of_not_mem {l : List Char} (h : '/' ∉ l) : l.head? ≠ some '/' := by
  cases l with
  | nil => simp
  | cons c rest =>
    simp only [List.head?_cons, ne_eq, Option.some_inj]
    intro hh
    subst hh
    exact h (List.mem_cons_self _ _)

theorem resolve_append_seg (base : List Char) {out : List Char} (hsl : '/' ∉ out)
    (h0 : out ≠ []) (h1 : out ≠ ['.']) (h2 : out ≠ ['.', '.']) :
    nodePathResolve base out =
      '/' :: joinSlash ((resolveSegs [] (splitOnSlash base)).reverse ++ [out]) := by
  unfold nodePathResolve
  rw [if_neg (head?_ne_slash_of_not_mem hsl)]
  unfold normalizeAbs
  rw [splitOnSlash_append_slash, resolveSegs_append, splitOnSlash_no_slash hsl]
  have hstep : resolveSegs (resolveSegs [] (splitOnSlash base)) [out] =
      out :: resolveSegs [] (splitOnSlash base) := by
    simp only [resolveSegs]
    rw [if_neg (by push_neg; exact ⟨h0, h1⟩), if_neg h2]
  rw [hstep, List.reverse_cons]

theorem resolve_slashfree_inj (base : List Char) {o1 o2 : List Char}
    (hs1 : '/' ∉ o1) (hs2 : '/' ∉ o2)
    (hn1 : o1 ≠ []) (hd1 : o1 ≠ ['.']) (hdd1 : o1 ≠ ['.', '.'])
    (hn2 : o2 ≠ []) (hd2 : o2 ≠ ['.']) (hdd2 : o2 ≠ ['.', '.'])
    (h : nodePathResolve base o1 = nodePathResolve base o2) : o1 = o2 := by
  rw [resolve_append_seg base hs1 hn1 hd1 hdd1,
    resolve_append_seg base hs2 hn2 hd2 hdd2] at h
  injection h with hh h'
  cases hX : (resolveSegs [] (splitOnSlash base)).reverse with
  | nil =>
    rw [hX] at h'
    simpa [joinSlash] using h'
  | cons X0 Xs =>
    rw [hX, joinSlash_append_singleton _ _ (by simp),
      joinSlash_append_singleton _ _ (by simp)] at h'
    have h2 := List.append_cancel_left h'
    simpa using h2

theorem slash_not_mem_uniqueOut {pre suf : Option (List Char)}
    (hpre : '/' ∉ pre.getD []) (hsuf : '/' ∉ suf.getD []) (k : ℕ) :
    '/' ∉ uniqueOut pre suf k := by
  unfold uniqueOut
  intro hmem
  rcases List.mem_append.mp hmem with hmem1 | hmem1
  · rcases List.mem_append.mp hmem1 with h2 | h2
    · exact hpre h2
    · exact absurd (renderNat_all_digits k '/' h2) (by decide)
  · exact hsuf hmem1

theorem uniqueOut_ne_nil (pre suf : Option (List Char)) (k : ℕ) :
    uniqueOut pre suf k ≠ [] := by
  unfold uniqueOut
  intro h
  rcases List.append_eq_nil.mp h with ⟨h1, -⟩
  rcases List.append_eq_nil.mp h1 with ⟨-, h2⟩
  exact renderNat_ne_nil k h2

theorem uniqueOut_ne_dots (pre suf : Option (List Char)) (k : ℕ) :
    uniqueOut pre suf k ≠ ['.'] ∧ uniqueOut pre suf k ≠ ['.', '.'] := by
  have hdig : ∃ c ∈ uniqueOut pre suf k, c.isDigit = true := by
    cases hr : renderNat k with
    | nil => exact absurd hr (renderNat_ne_nil k)
    | cons c r =>
      refine ⟨c, ?_, renderNat_all_digits k c (hr ▸ List.mem_cons_self c r)⟩
      unfold uniqueOut
      exact List.mem_append.mpr (Or.inl (List.mem_append.mpr
        (Or.inr (hr ▸ List.mem_cons_self c r))))
  obtain ⟨c, hc, hdc⟩ := hdig
  constructor <;> intro he <;> rw [he] at hc
  · rw [List.mem_singleton] at hc
    subst hc
    exact absurd hdc (by decide)
  · simp only [List.mem_cons, List.not_mem_nil, or_false] at hc
    rcases hc with hc | hc <;> (subst hc; exact absurd hdc (by decide))

theorem mem_createRun_paths {pre suf : Option (List Char)} :
    ∀ {n : ℕ} {st : FileManagerState} {q : List Char}, q ∈ (createRun st pre suf n).1 →
      ∃ k, st.counter ≤ k ∧ q = nodePathResolve st.path (uniqueOut pre suf k) := by
  intro n
  induction n with
  | zero =>
    intro st q hq
    simp only [createRun, List.not_mem_nil] at hq
  | succ n ih =>
    intro st q hq
    simp only [createRun] at hq
    rcases List.mem_cons.mp hq with rfl | hq'
    · exact ⟨st.counter, Nat.le_refl _, rfl⟩
    · obtain ⟨k, hk, hqe⟩ := ih hq'
      have hcnt : (st.create pre suf).2.counter = st.counter + 1 := rfl
      refine ⟨k, by omega, ?_⟩
      exact hqe

/-- C8 counterexample: with *differing* prefix/suffix arguments across
calls, two consecutive `create` calls on a fresh manager return the *same*
path — the first call (counter 0, suffix `1`) and the second call (prefix
`0`, counter 1) both build the filename `01`.  Uniqueness therefore does
not hold for arbitrary per-call prefix/suffix arguments. -/
theorem c8_create_collision_counterexample :
    ((FileManagerState.fresh
        ⟨Ascension.SELF, Occasion.ON_EXIT_OR_EXPLICIT, Inlcude.MANAGED_FILES⟩
        "/tmp/vencord/chatbubble/ffmpeg".data).create none (some "1".data)).1 =
      (((FileManagerState.fresh
        ⟨Ascension.SELF, Occasion.ON_EXIT_OR_EXPLICIT, Inlcude.MANAGED_FILES⟩
        "/tmp/vencord/chatbubble/ffmpeg".data).create none (some "1".data)).2.create
          (some "0".data) none).1 := by
  have r0 : renderNat 0 = ['0'] := by rw [renderNat]; decide
  have r1 : renderNat 1 = ['1'] := by rw [renderNat]; decide
  simp only [FileManagerState.create, FileManagerState.unique, FileManagerState.register,
    FileManagerState.fresh, uniqueOut, nodePathResolve, Option.getD_some, Option.getD_none,
    r0, r1]
  decide

/-- A second collision mode, showing why the amended distinctness claim
must restrict the affixes: even a pair that is *fixed across calls* can
collide when it contains a `/..` segment, because `path.resolve`
normalizes it away — with suffix `/../x`, counter 0 builds `0/../x` and
counter 1 builds `1/../x`, and both resolve to the manager path plus
`/x`. -/
theorem uniqueOut_dotdot_suffix_collision :
    nodePathResolve "/tmp/vencord/chatbubble/ffmpeg".data
        (uniqueOut none (some "/../x".data) 0) =
      nodePathResolve "/tmp/vencord/chatbubble/ffmpeg".data
        (uniqueOut none (some "/../x".data) 1) := by
  have r0 : renderNat 0 = ['0'] := by rw [renderNat]; decide
  have r1 : renderNat 1 = ['1'] := by rw [renderNat]; decide
  simp only [uniqueOut, Option.getD_none, Option.getD_some, r0, r1]
  decide

/-- C8 (amended): `create` called any number of times with one fixed
prefix/suffix pair containing no path separator — which covers every call
site in the program (prefixes `socket.`, `main`, `bubble`, `out`, never a
suffix) — yields pairwise-distinct paths, because the post-incremented
per-manager counter renders injectively between the fixed affixes and
path resolution is injective on separator-free filenames.  Distinctness
can fail when the affixes differ between calls, or when a fixed affix
contains a separator whose `..` segments path resolution collapses. -/
theorem c8_createRun_pairwise_distinct (st : FileManagerState)
    (pre suf : Option (List Char)) (n : ℕ)
    (hpre : '/' ∉ pre.getD []) (hsuf : '/' ∉ suf.getD []) :
    List.Pairwise (· ≠ ·) (createRun st pre suf n).1 := by
  induction n generalizing st with
  | zero => exact List.Pairwise.nil
  | succ n ih =>
    simp only [createRun]
    refine List.pairwise_cons.mpr ⟨?_, ih _⟩
    intro q hq
    obtain ⟨k, hk, rfl⟩ := mem_createRun_paths hq
    have hcnt : (st.create pre suf).2.counter = st.counter + 1 := rfl
    intro heq
    have heq' : nodePathResolve st.path (uniqueOut pre suf st.counter) =
        nodePathResolve st.path (uniqueOut pre suf k) := heq
    have ho := resolve_slashfree_inj st.path
      (slash_not_mem_uniqueOut hpre hsuf st.counter)
      (slash_not_mem_uniqueOut hpre hsuf k)
      (uniqueOut_ne_nil pre suf st.counter) (uniqueOut_ne_dots pre suf st.counter).1
      (uniqueOut_ne_dots pre suf st.counter).2
      (uniqueOut_ne_nil pre suf k) (uniqueOut_ne_dots pre suf k).1
      (uniqueOut_ne_dots pre suf k).2 heq'
    have hik := uniqueOut_inj pre suf ho
    omega

/-- Witness for the amended C8: three `create` calls with the program's
own affix shape (prefix `main`, no suffix) on a fresh manager yield
pairwise-distinct paths. -/
theorem c8_createRun_distinct_witness :
    ('/' ∉ ((some "main".data : Option (List Char))).getD [] ∧
      '/' ∉ ((none : Option (List Char))).getD []) ∧
    List.Pairwise (· ≠ ·)
      (createRun (FileManagerState.fresh
        ⟨Ascension.SELF, Occasion.ON_EXIT_OR_EXPLICIT, Inlcude.MANAGED_FILES⟩
        "/tmp/vencord/chatbubble/ffmpeg".data) (some "main".data) none 3).1 :=
  ⟨⟨by decide, by decide⟩,
    c8_createRun_pairwise_distinct _ (some "main".data) none 3 (by decide) (by decide)⟩
